import Mathlib

/-!
Verification of the storage core of the sample-backend repository:
the fixed-slot byte-array store (`RepositoryBytearray`), the ordered-map
store (`RepositoryOrderedDict`), the list store (`RepositoryList`), the
LRU cache (`CacheLRU`) and the cache-composed database-backed store
(`RepositoryAsyncpg`).

The Python code is shallowly embedded: the byte buffer becomes a function
`Nat → Nat` together with the fixed buffer size, Python's indexing (with
its negative-index wrap-around and `IndexError`) becomes explicit
`Except`-valued access functions, and each repository method becomes a
Lean function on the embedded state.
-/

namespace SampleBackend

/-- Python runtime errors that the embedded code can raise. -/
inductive PyErr : Type
  | indexError
  | keyError
  | attributeError
  | valueError
  deriving DecidableEq, Repr

instance {ε α : Type} [DecidableEq ε] [DecidableEq α] :
    DecidableEq (Except ε α) := fun a b =>
  match a, b with
  | .ok x, .ok y =>
      if h : x = y then .isTrue (by rw [h]) else .isFalse (by intro hc; cases hc; exact h rfl)
  | .error x, .error y =>
      if h : x = y then .isTrue (by rw [h]) else .isFalse (by intro hc; cases hc; exact h rfl)
  | .ok _, .error _ => .isFalse (by intro hc; cases hc)
  | .error _, .ok _ => .isFalse (by intro hc; cases hc)

/-! ### RepositoryBytearray constants
From `repository_bytearray.py`:
`__field_length = 40`, `__db_length = 15`; the template
`{'id', 'title', 'value'}` has 3 keys, so `amount_of_fields = 2` and
`__entry_length = 2 * 40 = 80`.  The buffer is
`bytearray(entry_length * db_length)`, i.e. `1200` zero bytes. -/

def fieldLength : Nat := 40

def dbLength : Nat := 15

def amountOfFields : Nat := 2

def entryLength : Nat := amountOfFields * fieldLength

def dbSize : Nat := entryLength * dbLength

/-- The byte buffer.  Only indices `< dbSize` are ever read or written;
the function's values beyond `dbSize` are irrelevant. -/
def ByteBuf : Type := Nat → Nat

/-- Source `bytearray(entry_length * db_length)`: all zeros. -/
def emptyBuf : ByteBuf := fun _ => 0

/-- Point update of a buffer. -/
def bufSet (db : ByteBuf) (i : Nat) (v : Nat) : ByteBuf :=
  fun j => if j = i then v else db j

/-- Python single-index read `db[i]` on a bytearray of length `dbSize`:
a negative index `i` with `-dbSize ≤ i` wraps to `dbSize + i`; an index
outside `[-dbSize, dbSize)` raises `IndexError`. -/
def pyGet (db : ByteBuf) (i : Int) : Except PyErr Nat :=
  if 0 ≤ i ∧ i < (dbSize : Int) then
    .ok (db i.toNat)
  else if -(dbSize : Int) ≤ i ∧ i < 0 then
    .ok (db ((dbSize : Int) + i).toNat)
  else
    .error .indexError

/-- Python single-index write `db[i] = v`, same index rule as `pyGet`. -/
def pySet (db : ByteBuf) (i : Int) (v : Nat) : Except PyErr ByteBuf :=
  if 0 ≤ i ∧ i < (dbSize : Int) then
    .ok (bufSet db i.toNat v)
  else if -(dbSize : Int) ≤ i ∧ i < 0 then
    .ok (bufSet db ((dbSize : Int) + i).toNat v)
  else
    .error .indexError

/-- Clamp one endpoint of a Python slice on a sequence of length `dbSize`:
negative endpoints are shifted by the length, then clamped into
`[0, dbSize]`.  Slicing never raises. -/
def sliceIdx (i : Int) : Nat :=
  if i < 0 then ((dbSize : Int) + i).toNat.min dbSize
  else i.toNat.min dbSize

/-- Python slice read `db[i:j]`. -/
def pySlice (db : ByteBuf) (i j : Int) : List Nat :=
  (List.range (sliceIdx j - sliceIdx i)).map (fun t => db (sliceIdx i + t))

/-- Source `bytes.rstrip(b"\x00")`: drop trailing zero bytes. -/
def rstripZeros (l : List Nat) : List Nat :=
  (l.reverse.dropWhile (fun b => b = 0)).reverse

/-- The loop `for i in range(len(p)): db[first + i] = p[i]`
of `__write_entry`, one Python index-assignment per byte. -/
def writeBytes (db : ByteBuf) (first : Int) (p : List Nat) :
    Except PyErr ByteBuf :=
  match p with
  | [] => .ok db
  | b :: rest => do
      let db' ← pySet db first b
      writeBytes db' (first + 1) rest

/-- The loop `for i in range(entry_length): db[first_byte + i] = 0`
of `delete`. -/
def zeroBytes (db : ByteBuf) (first : Int) (n : Nat) : Except PyErr ByteBuf :=
  match n with
  | 0 => .ok db
  | m + 1 => do
      let db' ← pySet db first 0
      zeroBytes db' (first + 1) m

/-- A record as handled by `RepositoryBytearray`: the integer `id`, and
`payload` standing for `bytearray(json.dumps(fields_without_id), 'utf-8')`
— the UTF-8 bytes of the JSON serialization of the non-id fields.
Records have equal non-id fields iff their payloads are equal, since
`json.dumps` is deterministic and `json.loads` inverts it. -/
structure BEntity where
  id : Int
  payload : List Nat
  deriving DecidableEq, Repr

/-- A payload that `json.dumps` can actually produce for a non-empty
field template: non-empty, starts with the opening brace byte `123`
(`json.dumps` of a dict always starts with the character 0x7b), and
contains no zero byte (JSON text never contains NUL). -/
def ValidPayload (p : List Nat) : Prop :=
  p ≠ [] ∧ p.head? = some 123 ∧ ∀ b ∈ p, 0 < b ∧ b < 256

instance (p : List Nat) : Decidable (ValidPayload p) := by
  unfold ValidPayload; infer_instance

/-- Source `__get_address`: `first_byte = (entity_id - 1) * entry_length`. -/
def getAddress (entityId : Int) : Int × Int :=
  ((entityId - 1) * (entryLength : Int),
   (entityId - 1) * (entryLength : Int) + (entryLength : Int))

/-- Source `__read_entity`: bounds-checks only `entity_id > db_length`, tests the
first byte of the slot, slices the slot, strips trailing zeros, and
decodes with `json.loads`.  `none` models the empty dict `{}`; a found
record is returned as the queried id together with the stripped payload
bytes (the source re-attaches `result["id"] = entity_id`).
`json.loads` is modelled as the identity on the stripped bytes — in every
state this development considers, a non-empty stripped slot holds exactly
the text some `json.dumps` produced — except that `json.loads("")` raises
(`ValueError`), which the source does not catch; this happens when the
slice is empty (e.g. `entity_id = 0`, where `db[-80:0]` is empty). -/
def readEntity (db : ByteBuf) (entityId : Int) : Except PyErr (Option BEntity) :=
  if entityId > (dbLength : Int) then
    .ok none
  else
    let (firstByte, lastByte) := getAddress entityId
    do
      let b0 ← pyGet db firstByte
      if b0 = 0 then
        .ok none
      else
        let stripped := rstripZeros (pySlice db firstByte lastByte)
        if stripped = [] then
          .error .valueError
        else
          .ok (some ⟨entityId, stripped⟩)

/-- Source `__write_entry`: serializes the non-id fields (the payload), computes
the first byte, and writes iff the slot's first byte `== write_if_exists`.
Python compares an `int` with a `bool` by value: `b == False` iff `b = 0`,
`b == True` iff `b = 1`.  Returns the new buffer and the status code. -/
def writeEntry (db : ByteBuf) (e : BEntity) (writeIfExists : Bool) :
    Except PyErr (ByteBuf × Int) :=
  let toDb := e.payload
  let firstByte := (getAddress e.id).1
  do
    let b0 ← pyGet db firstByte
    if b0 = (if writeIfExists then 1 else 0) then
      let db' ← writeBytes db firstByte toDb
      .ok (db', 0)
    else
      .ok (db, -1)

/-- Source `get`. -/
def baGet (db : ByteBuf) (entityId : Int) : Except PyErr (Option BEntity) :=
  readEntity db entityId

/-- Source `add`: `__write_entry(entity, write_if_exists=False)`. -/
def baAdd (db : ByteBuf) (e : BEntity) : Except PyErr (ByteBuf × Int) :=
  writeEntry db e false

/-- Source `update`: `__write_entry(entity, write_if_exists=True)`. -/
def baUpdate (db : ByteBuf) (e : BEntity) : Except PyErr (ByteBuf × Int) :=
  writeEntry db e true

/-- Source `delete`: no bounds check at all; reads the slot's first byte,
zero-fills the whole slot if non-zero. -/
def baDelete (db : ByteBuf) (entityId : Int) : Except PyErr (ByteBuf × Int) :=
  let (firstByte, _) := getAddress entityId
  do
    let b0 ← pyGet db firstByte
    if b0 ≠ 0 then
      let db' ← zeroBytes db firstByte entryLength
      .ok (db', 0)
    else
      .ok (db, -1)

/-- The scan `for entity_id in ids: ... collect non-empty reads`. -/
def scanIds (db : ByteBuf) (ids : List Int) :
    Except PyErr (List BEntity) :=
  match ids with
  | [] => .ok []
  | i :: rest => do
      let r ← readEntity db i
      let tail ← scanIds db rest
      match r with
      | none => .ok tail
      | some e => .ok (e :: tail)

/-- Source `index`: `for entity_id in range(1, db_length)` — ids `1 .. db_length - 1`
(the last slot is never scanned). -/
def baIndex (db : ByteBuf) : Except PyErr (List BEntity) :=
  scanIds db ((List.range (dbLength - 1)).map (fun n => (n : Int) + 1))

/-- Source `list_paginated`: `offset = (page-1)*10`;
`for entity_id in range(offset, offset + 10)` — note page 1 scans ids
`0 .. 9`, id `0` included. -/
def baListPaginated (db : ByteBuf) (page : Int) : Except PyErr (List BEntity) :=
  let offset := (page - 1) * 10
  scanIds db ((List.range 10).map (fun n => offset + (n : Int)))

/-! ### The record dict
`ENTITY_TEMPLATE = {'id': -1, 'title': 'title', 'value': 'value'}` from
`abstract_repository.py`: an entity dict has an integer `id` and the two
string fields `title` and `value`. -/

structure DictEntity where
  id : Int
  title : String
  value : String
  deriving DecidableEq, Repr

/-! ### RepositoryOrderedDict (`repository_ordered_dict.py`)
The `OrderedDict` is embedded as an association list in insertion order,
head oldest.  Its keys are pairwise distinct in every reachable state. -/

/-- Keys of an association list. -/
def odKeys {V : Type} (c : List (Int × V)) : List Int :=
  c.map Prod.fst

/-- Python dict read `d[k]`: `KeyError` when the key is absent. -/
def odRead {V : Type} (c : List (Int × V)) (k : Int) : Except PyErr V :=
  match c.find? (fun kv => kv.1 = k) with
  | none => .error .keyError
  | some kv => .ok kv.2

/-- Python dict write `d[k] = v`: replace in place when the key is
present (position preserved), else append at the end. -/
def odSet {V : Type} (c : List (Int × V)) (k : Int) (v : V) : List (Int × V) :=
  if c.any (fun kv => kv.1 = k) then
    c.map (fun kv => if kv.1 = k then (k, v) else kv)
  else
    c ++ [(k, v)]

/-- Python dict removal `del d[k]` / `d.pop(k)` for a present key: drop
the entry.  (With distinct keys, dropping every entry keyed `k` drops
exactly the one.) -/
def odRemove {V : Type} (c : List (Int × V)) (k : Int) : List (Int × V) :=
  c.filter (fun kv => kv.1 ≠ k)

/-- Source `get`: membership test, then plain read. -/
def odGet (c : List (Int × DictEntity)) (entityId : Int) :
    Option DictEntity :=
  match c.find? (fun kv => kv.1 = entityId) with
  | none => none
  | some kv => some kv.2

/-- Source `add`: `try: _ = db[key]; return -1 except KeyError: db[key] = entity;
return 0`. -/
def odAdd (c : List (Int × DictEntity)) (e : DictEntity) :
    List (Int × DictEntity) × Int :=
  match odRead c e.id with
  | .ok _ => (c, -1)
  | .error _ => (odSet c e.id e, 0)

/-- Source `delete`: `try: _ = db[id]; del db[id]; return -1 except KeyError:
return 0`.  NOTE the source's return codes: it returns `-1` after a
successful removal and `0` when the key is absent, although its own
docstring (and the call sites in `app.py`) take `0` for success and `-1`
for not-found. -/
def odDelete (c : List (Int × DictEntity)) (entityId : Int) :
    List (Int × DictEntity) × Int :=
  match odRead c entityId with
  | .ok _ => (odRemove c entityId, -1)
  | .error _ => (c, 0)

/-- Source `update`: `try: _ = db[key]; db[key] = entity; return -1 except
KeyError: return 0`.  Same swapped return codes as `delete`. -/
def odUpdate (c : List (Int × DictEntity)) (e : DictEntity) :
    List (Int × DictEntity) × Int :=
  match odRead c e.id with
  | .ok _ => (odSet c e.id e, -1)
  | .error _ => (c, 0)

/-! ### RepositoryList (`repository_list.py`) -/

/-- Source `__get_index`: scan for the first index whose entry's `"id"` key
equals the argument, `-1` when absent. -/
def rlGetIndex (db : List DictEntity) (userId : Int) : Int :=
  match db.findIdx? (fun e => e.id = userId) with
  | none => -1
  | some i => (i : Int)

/-- Source `get`: `for entity in db: if entity.id == entity_id: ...`.  The
entities stored by `add` are plain dicts, and a dict has no attribute
`id`, so the very first loop iteration raises `AttributeError`; only an
empty repository reaches the final `return {}`. -/
def rlGet (db : List DictEntity) (_entityId : Int) :
    Except PyErr (Option DictEntity) :=
  match db with
  | [] => .ok none
  | _ :: _ => .error .attributeError

/-- Source `add`: append when `__get_index` returns `-1`. -/
def rlAdd (db : List DictEntity) (e : DictEntity) : List DictEntity × Int :=
  if rlGetIndex db e.id = -1 then
    (db ++ [e], 0)
  else
    (db, -1)

/-! ### CacheLRU (`cache_lru.py`)
The `OrderedDict` is again an association list in recency order: head =
least recently used, last = most recently used. -/

/-- Source `move_to_end(key)`: move the entry for `key` to the last position.
(At every call site the key is present, so the `KeyError` branch of the
real `move_to_end` is unreachable; an absent key leaves the list as is.) -/
def odMoveToEnd {V : Type} (c : List (Int × V)) (k : Int) : List (Int × V) :=
  match c.find? (fun kv => kv.1 = k) with
  | none => c
  | some kv => (c.filter (fun kv' => kv'.1 ≠ k)) ++ [kv]

/-- Source `put`: `cache[key] = value; cache.move_to_end(key); if len(cache) >
maxsize: cache.popitem(last=False)` — `popitem(last=False)` pops the
head (LRU) entry. -/
def cachePut {V : Type} (maxsize : Nat) (c : List (Int × V)) (k : Int)
    (v : V) : List (Int × V) :=
  let c1 := odSet c k v
  let c2 := odMoveToEnd c1 k
  if c2.length > maxsize then c2.tail else c2

/-- Source `get`: on a miss return `-1` (modelled `none`) with no side effect;
on a hit move the key to the end and return its value. -/
def cacheGet {V : Type} (c : List (Int × V)) (k : Int) :
    Option V × List (Int × V) :=
  match c.find? (fun kv => kv.1 = k) with
  | none => (none, c)
  | some kv => (some kv.2, odMoveToEnd c k)

/-- Source `delete`: `pop` the key, swallowing the `KeyError` when absent. -/
def cacheDelete {V : Type} (c : List (Int × V)) (k : Int) : List (Int × V) :=
  odRemove c k

/-- Source `clear`: fresh empty `OrderedDict`. -/
def cacheClear {V : Type} : List (Int × V) := []

/-- One operation of the public `CacheLRU` interface. -/
inductive CacheOp (V : Type) : Type
  | put (k : Int) (v : V)
  | get (k : Int)
  | delete (k : Int)
  | clear

/-- Run a sequence of cache operations (return values discarded). -/
def cacheRun {V : Type} (maxsize : Nat) : List (CacheOp V) →
    List (Int × V) → List (Int × V)
  | [], c => c
  | .put k v :: ops, c => cacheRun maxsize ops (cachePut maxsize c k v)
  | .get k :: ops, c => cacheRun maxsize ops (cacheGet c k).2
  | .delete k :: ops, c => cacheRun maxsize ops (cacheDelete c k)
  | .clear :: ops, _c => cacheRun maxsize ops cacheClear

/-! ### RepositoryAsyncpg (`repository_asyncpg.py`)
The PostgreSQL table `sample_table` (`id` primary key, `title`, `value`)
is embedded as an association list of rows; the composed state carries
the table and the `CacheLRU` (constructed with `CACHE_SIZE = 5`).

The `add`, `delete` and `update` methods each guard on `self.get(...)`
— but `get` is an `async` coroutine and the call is not awaited, so the
guard compares a coroutine object with `{}`:
`self.get(...) == {}` is always `False` and `self.get(...) != {}` is
always `True`.  The two constants below record those two comparison
results and keep the source's branch structure visible. -/

def cacheSize : Nat := 5

structure PgState where
  table : List (Int × DictEntity)
  cache : List (Int × DictEntity)
  deriving Repr

/-- Source `self.get(entity_id) == {}` with the coroutine not awaited: a
coroutine object never equals `{}`. -/
def coroutineEqEmptyDict : Bool := false

/-- Source `self.get(entity_id) != {}` with the coroutine not awaited. -/
def coroutineNeEmptyDict : Bool := true

/-- Source `SELECT * FROM sample_table WHERE id = %(id)s`, then `results[0]`:
the row with primary key `entity_id`, if any. -/
def pgSelect (t : List (Int × DictEntity)) (entityId : Int) :
    Option DictEntity :=
  match t.find? (fun kv => kv.1 = entityId) with
  | none => none
  | some kv => some kv.2

/-- Source `get`: cache lookup first; on a miss query the table and, on a hit
there, `put` the row into the cache. -/
def pgGet (s : PgState) (entityId : Int) : Option DictEntity × PgState :=
  match cacheGet s.cache entityId with
  | (some v, c') => (some v, { s with cache := c' })
  | (none, _) =>
      match pgSelect s.table entityId with
      | none => (none, s)
      | some row =>
          (some row, { s with cache := cachePut cacheSize s.cache entityId row })

/-- Source `add`: `if self.get(entity["id"]) == {}: INSERT ...; cache.put(...);
return 0; return -1`.  Because the guard compares an un-awaited
coroutine with `{}`, the `then` branch is dead: `add` always returns
`-1` and changes nothing. -/
def pgAdd (s : PgState) (e : DictEntity) : PgState × Int :=
  if coroutineEqEmptyDict then
    ({ table := s.table ++ [(e.id, e)],
       cache := cachePut cacheSize s.cache e.id e }, 0)
  else
    (s, -1)

/-- Source `delete`: `if self.get(entity_id) != {}: DELETE ...;
cache.delete(entity_id); return 0; return -1`.  The guard is always
`True`, so the `DELETE` query and the cache invalidation always run. -/
def pgDelete (s : PgState) (entityId : Int) : PgState × Int :=
  if coroutineNeEmptyDict then
    ({ table := s.table.filter (fun kv => kv.1 ≠ entityId),
       cache := cacheDelete s.cache entityId }, 0)
  else
    (s, -1)

/-- Source `update`: `if self.get(entity["id"]) != {}: UPDATE ... WHERE id;
cache.delete(entity["id"]); return 0; return -1`.  The guard is always
`True`. -/
def pgUpdate (s : PgState) (e : DictEntity) : PgState × Int :=
  if coroutineNeEmptyDict then
    ({ table := s.table.map (fun kv => if kv.1 = e.id then (e.id, e) else kv),
       cache := cacheDelete s.cache e.id }, 0)
  else
    (s, -1)

/-! ### Helper accessors for stating concrete facts -/

/-- The status code of a byte-array operation. -/
def opRet (r : Except PyErr (ByteBuf × Int)) : Except PyErr Int :=
  r.map Prod.snd

/-- The buffer after a byte-array operation (the error fallback is never
reached in the states this development evaluates). -/
def opBuf (r : Except PyErr (ByteBuf × Int)) : ByteBuf :=
  match r with
  | .ok (d, _) => d
  | .error _ => emptyBuf

/-! ### Pure descriptions of the byte loops -/

/-- Pointwise description of the write loop of `__write_entry`. -/
def writeFn (db : ByteBuf) (first : Nat) (p : List Nat) : ByteBuf :=
  fun j => if first ≤ j ∧ j < first + p.length then p.getD (j - first) 0 else db j

/-- Pointwise description of the zero-fill loop of `delete`. -/
def zeroFn (db : ByteBuf) (first : Nat) (n : Nat) : ByteBuf :=
  fun j => if first ≤ j ∧ j < first + n then 0 else db j

theorem pyGet_in (db : ByteBuf) (i : Nat) (h : i < dbSize) :
    pyGet db (i : Int) = .ok (db i) := by
  unfold pyGet
  rw [if_pos]
  · simp
  · constructor
    · exact Int.ofNat_nonneg i
    · exact_mod_cast h

theorem pySet_in (db : ByteBuf) (i : Nat) (v : Nat) (h : i < dbSize) :
    pySet db (i : Int) v = .ok (bufSet db i v) := by
  unfold pySet
  rw [if_pos]
  · simp
  · constructor
    · exact Int.ofNat_nonneg i
    · exact_mod_cast h

theorem writeFn_nil (db : ByteBuf) (first : Nat) : writeFn db first [] = db := by
  funext j
  simp [writeFn, Nat.lt_irrefl]

theorem writeFn_cons (db : ByteBuf) (first : Nat) (b : Nat) (rest : List Nat) :
    writeFn (bufSet db first b) (first + 1) rest = writeFn db first (b :: rest) := by
  funext j
  simp only [writeFn, bufSet, List.length_cons]
  by_cases h1 : first + 1 ≤ j ∧ j < first + 1 + rest.length
  · rw [if_pos h1, if_pos (by omega)]
    obtain ⟨n, rfl⟩ : ∃ n, j = first + 1 + n := ⟨j - (first + 1), by omega⟩
    have e1 : first + 1 + n - (first + 1) = n := by omega
    have e2 : first + 1 + n - first = n + 1 := by omega
    rw [e1, e2, List.getD_cons_succ]
  · rw [if_neg h1]
    by_cases h2 : j = first
    · subst h2
      rw [if_pos (by simp)]
      rw [if_pos (by omega), Nat.sub_self, List.getD_cons_zero]
    · rw [if_neg h2, if_neg (by omega)]

theorem writeBytes_ok (p : List Nat) (db : ByteBuf) (first : Nat)
    (h : first + p.length ≤ dbSize) :
    writeBytes db (first : Int) p = .ok (writeFn db first p) := by
  induction p generalizing db first with
  | nil => rw [writeFn_nil]; rfl
  | cons b rest ih =>
      have hfirst : first < dbSize := by
        simp only [List.length_cons] at h; omega
      have hrest : (first + 1) + rest.length ≤ dbSize := by
        simp only [List.length_cons] at h; omega
      unfold writeBytes
      rw [pySet_in db first b hfirst]
      have : ((first : Int) + 1) = ((first + 1 : Nat) : Int) := by push_cast; ring
      rw [show (Except.ok (bufSet db first b) : Except PyErr ByteBuf) >>=
            (fun db' => writeBytes db' ((first : Int) + 1) rest) =
            writeBytes (bufSet db first b) ((first : Int) + 1) rest from rfl,
          this, ih (bufSet db first b) (first + 1) hrest, writeFn_cons]

theorem zeroFn_zero (db : ByteBuf) (first : Nat) : zeroFn db first 0 = db := by
  funext j
  simp [zeroFn]

theorem zeroFn_succ (db : ByteBuf) (first : Nat) (m : Nat) :
    zeroFn (bufSet db first 0) (first + 1) m = zeroFn db first (m + 1) := by
  funext j
  simp only [zeroFn, bufSet]
  by_cases h1 : first + 1 ≤ j ∧ j < first + 1 + m
  · rw [if_pos h1, if_pos (by omega)]
  · rw [if_neg h1]
    by_cases h2 : j = first
    · subst h2
      rw [if_pos (by simp), if_pos (by omega)]
    · rw [if_neg h2, if_neg (by omega)]

theorem zeroBytes_ok (n : Nat) (db : ByteBuf) (first : Nat)
    (h : first + n ≤ dbSize) :
    zeroBytes db (first : Int) n = .ok (zeroFn db first n) := by
  induction n generalizing db first with
  | zero => rw [zeroFn_zero]; rfl
  | succ m ih =>
      have hfirst : first < dbSize := by omega
      unfold zeroBytes
      rw [pySet_in db first 0 hfirst]
      have hcast : ((first : Int) + 1) = ((first + 1 : Nat) : Int) := by push_cast; ring
      rw [show (Except.ok (bufSet db first 0) : Except PyErr ByteBuf) >>=
            (fun db' => zeroBytes db' ((first : Int) + 1) m) =
            zeroBytes (bufSet db first 0) ((first : Int) + 1) m from rfl,
          hcast, ih (bufSet db first 0) (first + 1) (by omega), zeroFn_succ]

theorem sliceIdx_in (i : Nat) (h : i ≤ dbSize) : sliceIdx (i : Int) = i := by
  unfold sliceIdx
  rw [if_neg (by omega)]
  simp [Nat.min_eq_left h]

theorem pySlice_in (db : ByteBuf) (f n : Nat) (h : f + n ≤ dbSize) :
    pySlice db (f : Int) ((f : Int) + (n : Int)) =
      (List.range n).map (fun t => db (f + t)) := by
  unfold pySlice
  have h1 : sliceIdx (f : Int) = f := sliceIdx_in f (by omega)
  have h2 : sliceIdx ((f : Int) + (n : Int)) = f + n := by
    rw [show (f : Int) + (n : Int) = ((f + n : Nat) : Int) by push_cast; ring]
    exact sliceIdx_in (f + n) h
  rw [h1, h2, Nat.add_sub_cancel_left]

theorem map_range_zero (n : Nat) (g : Nat → Nat) (h : ∀ t, t < n → g t = 0) :
    (List.range n).map g = List.replicate n 0 := by
  induction n with
  | zero => rfl
  | succ m ih =>
      rw [List.range_succ, List.map_append, List.replicate_succ',
        ih (fun t ht => h t (by omega))]
      simp [h m (by omega)]

theorem map_range_payload (p : List Nat) (z : Nat) (g : Nat → Nat)
    (h1 : ∀ t, t < p.length → g t = p.getD t 0)
    (h2 : ∀ t, p.length ≤ t → t < p.length + z → g t = 0) :
    (List.range (p.length + z)).map g = p ++ List.replicate z 0 := by
  induction p generalizing g with
  | nil =>
      have h0 := map_range_zero z g (fun t ht => h2 t (by simp) (by simp; omega))
      simpa using h0
  | cons b rest ih =>
      have hn : rest.length + 1 + z = (rest.length + z) + 1 := by omega
      rw [List.length_cons, hn, List.range_succ_eq_map, List.map_cons, List.map_map]
      have hg0 : g 0 = b := by
        have := h1 0 (by simp)
        simpa using this
      have hih : (List.range (rest.length + z)).map (g ∘ Nat.succ) =
          rest ++ List.replicate z 0 := by
        apply ih
        · intro t ht
          have := h1 (t + 1) (by simp; omega)
          simpa [Nat.succ_eq_add_one] using this
        · intro t ht1 ht2
          have := h2 (t + 1) (by simp; omega) (by simp; omega)
          simpa [Nat.succ_eq_add_one] using this
      rw [hg0, hih]
      rfl

theorem dropWhile_replicate_zero (z : Nat) (l : List Nat) :
    (List.replicate z 0 ++ l).dropWhile (fun b => b = 0) =
      l.dropWhile (fun b => b = 0) := by
  induction z with
  | zero => rfl
  | succ m ih => rw [List.replicate_succ, List.cons_append, List.dropWhile_cons]; simp [ih]

theorem rstripZeros_payload (p : List Nat) (z : Nat) (hpos : ∀ b ∈ p, 0 < b) :
    rstripZeros (p ++ List.replicate z 0) = p := by
  unfold rstripZeros
  rw [List.reverse_append, List.reverse_replicate, dropWhile_replicate_zero]
  match h : p.reverse with
  | [] =>
      have : p = [] := by simpa using congrArg List.reverse h
      simp [this]
  | a :: l =>
      have ha : a ∈ p := by
        rw [← List.mem_reverse, h]; simp
      have : ¬ (a = 0) := by
        have := hpos a ha; omega
      rw [List.dropWhile_cons, if_neg (by simpa)]
      rw [← h, List.reverse_reverse]

/-! ### Operation-level lemmas for in-range slots -/

theorem entryLength_eq : entryLength = 80 := rfl

theorem dbLength_eq : dbLength = 15 := rfl

theorem dbSize_eq : dbSize = 1200 := rfl

/-- Cast bookkeeping: the first byte of slot `k` (for `1 ≤ k`). -/
theorem firstByte_cast (k : Nat) (h1 : 1 ≤ k) :
    ((k : Int) - 1) * (entryLength : Int) = (((k - 1) * entryLength : Nat) : Int) := by
  have : ((k : Int) - 1) = (((k - 1 : Nat)) : Int) := by omega
  rw [this]
  push_cast
  ring

theorem firstByte_lt (k : Nat) (h1 : 1 ≤ k) (h2 : k ≤ dbLength) :
    (k - 1) * entryLength < dbSize := by
  rw [entryLength_eq, dbSize_eq]
  rw [dbLength_eq] at h2
  omega

/-- Source `add` on an in-range id whose slot has a zero first byte: writes the
payload byte-for-byte from the slot's first byte and returns `0`. -/
theorem baAdd_ok (db : ByteBuf) (k : Nat) (p : List Nat)
    (h1 : 1 ≤ k) (h2 : k ≤ dbLength) (hfit : p.length ≤ entryLength)
    (hempty : db ((k - 1) * entryLength) = 0) :
    baAdd db ⟨(k : Int), p⟩ = .ok (writeFn db ((k - 1) * entryLength) p, 0) := by
  unfold baAdd writeEntry getAddress
  simp only
  rw [firstByte_cast k h1, pyGet_in db _ (firstByte_lt k h1 h2)]
  have hwrite := writeBytes_ok p db ((k - 1) * entryLength)
    (by have := firstByte_lt k h1 h2; rw [entryLength_eq] at hfit ⊢;
        rw [dbSize_eq] at this ⊢; rw [dbLength_eq] at h2; omega)
  show (if db ((k - 1) * entryLength) = (if false then 1 else 0) then _ else _ :
      Except PyErr (ByteBuf × Int)) = _
  rw [if_pos (by simpa using hempty)]
  rw [show (writeBytes db ((((k - 1) * entryLength : Nat) : Int)) p >>=
        fun db' => Except.ok (db', 0) :
        Except PyErr (ByteBuf × Int)) =
      (writeBytes db ((((k - 1) * entryLength : Nat) : Int)) p).bind
        (fun db' => Except.ok (db', 0)) from rfl]
  rw [hwrite]
  rfl

/-- Source `delete` on an in-range id whose slot has a non-zero first byte:
zero-fills the whole slot and returns `0`. -/
theorem baDelete_ok (db : ByteBuf) (k : Nat)
    (h1 : 1 ≤ k) (h2 : k ≤ dbLength)
    (hocc : db ((k - 1) * entryLength) ≠ 0) :
    baDelete db (k : Int) = .ok (zeroFn db ((k - 1) * entryLength) entryLength, 0) := by
  unfold baDelete getAddress
  simp only
  rw [firstByte_cast k h1, pyGet_in db _ (firstByte_lt k h1 h2)]
  have hzero := zeroBytes_ok entryLength db ((k - 1) * entryLength)
    (by rw [entryLength_eq, dbSize_eq]; rw [dbLength_eq] at h2; omega)
  show (if db ((k - 1) * entryLength) ≠ 0 then _ else _ :
      Except PyErr (ByteBuf × Int)) = _
  rw [if_pos hocc]
  rw [show (zeroBytes db ((((k - 1) * entryLength : Nat) : Int)) entryLength >>=
        fun db' => Except.ok (db', 0) :
        Except PyErr (ByteBuf × Int)) =
      (zeroBytes db ((((k - 1) * entryLength : Nat) : Int)) entryLength).bind
        (fun db' => Except.ok (db', 0)) from rfl]
  rw [hzero]
  rfl

/-- Source `get` on an in-range id whose slot holds exactly a non-empty
all-non-zero payload followed by zero padding: returns that payload with
the queried id. -/
theorem baGet_ok (db : ByteBuf) (k : Nat) (p : List Nat)
    (h1 : 1 ≤ k) (h2 : k ≤ dbLength)
    (hne : p ≠ []) (hpos : ∀ b ∈ p, 0 < b) (hfit : p.length ≤ entryLength)
    (hbytes1 : ∀ t, t < p.length → db ((k - 1) * entryLength + t) = p.getD t 0)
    (hbytes2 : ∀ t, p.length ≤ t → t < entryLength →
      db ((k - 1) * entryLength + t) = 0) :
    baGet db (k : Int) = .ok (some ⟨(k : Int), p⟩) := by
  unfold baGet readEntity getAddress
  rw [if_neg (by rw [dbLength_eq] at h2 ⊢; omega)]
  simp only
  rw [firstByte_cast k h1, pyGet_in db _ (firstByte_lt k h1 h2)]
  have hb0 : db ((k - 1) * entryLength) ≠ 0 := by
    have h0 := hbytes1 0 (by cases p with
      | nil => exact absurd rfl hne
      | cons b rest => simp)
    rw [Nat.add_zero] at h0
    rw [h0]
    cases p with
    | nil => exact absurd rfl hne
    | cons b rest =>
        have := hpos b (by simp)
        simp [List.getD_cons_zero]
        omega
  have hslice : pySlice db (((k - 1) * entryLength : Nat) : Int)
      ((((k - 1) * entryLength : Nat) : Int) + (entryLength : Int)) =
      p ++ List.replicate (entryLength - p.length) 0 := by
    rw [pySlice_in db ((k - 1) * entryLength) entryLength
      (by rw [entryLength_eq, dbSize_eq]; rw [dbLength_eq] at h2; omega)]
    have hlen : entryLength = p.length + (entryLength - p.length) := by omega
    have hmr := map_range_payload p (entryLength - p.length)
      (fun t => db ((k - 1) * entryLength + t))
      (fun t ht => hbytes1 t ht)
      (fun t ht1 ht2 => hbytes2 t ht1 (by omega))
    rw [← hlen] at hmr
    exact hmr
  have hstrip : rstripZeros (p ++ List.replicate (entryLength - p.length) 0) = p :=
    rstripZeros_payload p (entryLength - p.length) hpos
  show (if db ((k - 1) * entryLength) = 0 then _ else _ :
      Except PyErr (Option BEntity)) = _
  rw [if_neg hb0]
  have hcast2 : (((k : Int) - 1) * (entryLength : Int) + (entryLength : Int)) =
      ((((k - 1) * entryLength : Nat) : Int) + (entryLength : Int)) := by
    rw [firstByte_cast k h1]
  simp only [firstByte_cast k h1] at hcast2 ⊢
  rw [hslice, hstrip, if_neg hne]

/-! ### Concrete records used by the evaluation theorems
Payload byte lists are the exact UTF-8 bytes of the `json.dumps` output
for the corresponding field dicts of the `ENTITY_TEMPLATE`. -/

/-- Source `json.dumps({"title": "A", "value": "value"})`. -/
def pA : List Nat :=
  [123, 34, 116, 105, 116, 108, 101, 34, 58, 32, 34, 65, 34, 44, 32, 34,
   118, 97, 108, 117, 101, 34, 58, 32, 34, 118, 97, 108, 117, 101, 34, 125]

/-- Source `json.dumps({"title": "C", "value": "value"})`. -/
def pC : List Nat :=
  [123, 34, 116, 105, 116, 108, 101, 34, 58, 32, 34, 67, 34, 44, 32, 34,
   118, 97, 108, 117, 101, 34, 58, 32, 34, 118, 97, 108, 117, 101, 34, 125]

/-- Source `json.dumps({"title": "Pyotr Pervy", "value": "value"})`. -/
def pP : List Nat :=
  [123, 34, 116, 105, 116, 108, 101, 34, 58, 32, 34, 80, 121, 111, 116,
   114, 32, 80, 101, 114, 118, 121, 34, 44, 32, 34, 118, 97, 108, 117,
   101, 34, 58, 32, 34, 118, 97, 108, 117, 101, 34, 125]

/-- Source `json.dumps({"title": "C", "value": "v"})` — a shorter payload. -/
def pShort : List Nat :=
  [123, 34, 116, 105, 116, 108, 101, 34, 58, 32, 34, 67, 34, 44, 32, 34,
   118, 97, 108, 117, 101, 34, 58, 32, 34, 118, 34, 125]

/-- The store after `add({id: 1, title: "A", value: "value"})`. -/
def dbOne : ByteBuf := opBuf (baAdd emptyBuf ⟨1, pA⟩)

/-- The store after additionally `add({id: 15, title: "Pyotr Pervy",
value: "value"})` — slots 1 and 15 occupied. -/
def dbOneFifteen : ByteBuf := opBuf (baAdd dbOne ⟨15, pP⟩)

/-- C1.  The claim says: for every occupied in-range slot, `update`
returns Success and `get` then returns the new fields.  The code's
`__write_entry(entity, write_if_exists=True)` only writes when the
slot's first byte `== True`, i.e. equals `1`; an occupied slot's first
byte is `{` (123), so `update` of an existing record returns `-1`
(NotFound) and leaves the record unchanged — contradicting the method's
own docstring and the `patch` test expecting 204.  This theorem
evaluates the code at the failing input `add({id:1,title:"A"})` then
`update({id:1,title:"C"})`. -/
theorem C1_update_of_existing_returns_notfound :
    opRet (baAdd emptyBuf ⟨1, pA⟩) = .ok 0 ∧
    baGet dbOne 1 = .ok (some ⟨1, pA⟩) ∧
    opRet (baUpdate dbOne ⟨1, pC⟩) = .ok (-1) ∧
    baGet (opBuf (baUpdate dbOne ⟨1, pC⟩)) 1 = .ok (some ⟨1, pA⟩) := by
  decide

/-- C2, counterexample.  On the empty store, `add` of a record with the
out-of-range id `0` does not fail: it returns `0` (Success) and writes
the payload into slot 15's byte region (Python's negative indexing wraps
`first_byte = -80` to `1120`); and on a store whose slot 15 is occupied,
`delete(0)` reports Success and zero-fills slot 15, destroying record
15. -/
theorem C2_counterexample :
    opRet (baAdd emptyBuf ⟨0, pA⟩) = .ok 0 ∧
    opBuf (baAdd emptyBuf ⟨0, pA⟩) ((dbLength - 1) * entryLength) = 123 ∧
    baGet dbOneFifteen 15 = .ok (some ⟨15, pP⟩) ∧
    opRet (baDelete dbOneFifteen 0) = .ok 0 ∧
    baGet (opBuf (baDelete dbOneFifteen 0)) 15 = .ok none := by
  decide

/-- C2, amended.  For ids greater than `N = db_length` the claim holds
for `get` (NotFound, no buffer access), but `add` and `delete` raise
`IndexError` instead of failing gracefully; and ids `≤ 0` are not
rejected at all: Python's negative indexing addresses the end of the
buffer, so `add` at id `0` on a store whose last slot is empty returns
Success and writes into slot 15's region. -/
theorem C2_amended_out_of_range (db : ByteBuf) (i : Int) (p : List Nat)
    (hi : (dbLength : Int) < i) :
    baGet db i = .ok none ∧
    baDelete db i = .error .indexError ∧
    baAdd db ⟨i, p⟩ = .error .indexError ∧
    opRet (baAdd emptyBuf ⟨0, pA⟩) = .ok 0 ∧
    opBuf (baAdd emptyBuf ⟨0, pA⟩) ((dbLength - 1) * entryLength) = 123 := by
  have hsize : (dbSize : Int) = 1200 := rfl
  have hentry : ((entryLength : Nat) : Int) = 80 := rfl
  have hlen : (dbLength : Int) = 15 := rfl
  rw [hlen] at hi
  refine ⟨?_, ?_, ?_, ?_, ?_⟩
  · unfold baGet readEntity
    rw [if_pos (by rw [hlen]; omega)]
  · unfold baDelete getAddress pyGet
    simp only
    rw [hentry, hsize]
    rw [if_neg (by omega), if_neg (by omega)]
    rfl
  · unfold baAdd writeEntry getAddress pyGet
    simp only
    rw [hentry, hsize]
    rw [if_neg (by omega), if_neg (by omega)]
    rfl
  · decide
  · decide

/-- C2 witness: the amended statement at `db = emptyBuf`, `i = 16`,
`p = pA`. -/
theorem C2_amended_witness :
    baGet emptyBuf 16 = .ok none ∧
    baDelete emptyBuf 16 = .error .indexError ∧
    baAdd emptyBuf ⟨16, pA⟩ = .error .indexError ∧
    opRet (baAdd emptyBuf ⟨0, pA⟩) = .ok 0 ∧
    opBuf (baAdd emptyBuf ⟨0, pA⟩) ((dbLength - 1) * entryLength) = 123 :=
  C2_amended_out_of_range emptyBuf 16 pA (by decide)

/-- C3.  The claim says `list()` returns every occupied record (ids
`1..N`) and the pages of `list_paginated` partition it.  The code's
`index` scans `range(1, db_length)`, i.e. ids `1..14`, so a record in
slot 15 is never listed; and `list_paginated(1)` scans ids `0..9`,
where id `0` wraps to slot 15 — with slot 15 occupied the empty slice
`db[-80:0]` makes `json.loads("")` raise.  Both contradict the methods'
docstrings ("returns all entities").  Evaluation at the failing store
with slots 1 and 15 occupied: -/
theorem C3_index_misses_last_slot :
    baGet dbOneFifteen 15 = .ok (some ⟨15, pP⟩) ∧
    baIndex dbOneFifteen = .ok [⟨1, pA⟩] ∧
    baListPaginated dbOneFifteen 1 = .error .valueError ∧
    baListPaginated dbOneFifteen 2 = .ok [⟨15, pP⟩] := by
  decide

/-- C6: there is a record at an empty in-range slot whose payload
exceeds `entry_length = 80` bytes, for which `add` returns Success and
writes past the slot's last byte into the adjacent slot (byte
`k * entry_length`, the first byte of slot `k+1`). -/
theorem C6_oversized_payload_overflows :
    ∃ (k : Nat) (p : List Nat), 1 ≤ k ∧ k < dbLength ∧ ValidPayload p ∧
      entryLength < p.length ∧
      emptyBuf ((k - 1) * entryLength) = 0 ∧
      opRet (baAdd emptyBuf ⟨(k : Int), p⟩) = .ok 0 ∧
      opBuf (baAdd emptyBuf ⟨(k : Int), p⟩) (k * entryLength) ≠ 0 := by
  refine ⟨1, 123 :: List.replicate 80 65, ?_⟩
  decide

theorem getD_zero_pos (p : List Nat) (hne : p ≠ []) (hpos : ∀ b ∈ p, 0 < b) :
    0 < p.getD 0 0 := by
  cases p with
  | nil => exact absurd rfl hne
  | cons b rest => simpa using hpos b (by simp)

/-- C8: on any store, for an in-range id `k` with an empty slot, adding
a valid fitting record, deleting it, and adding a strictly shorter valid
record succeeds at every step, and the final `get` returns exactly the
second record's payload — `delete` zero-fills the whole slot, so no
residual bytes of the first record survive. -/
theorem C8_tombstone_cleanliness (db : ByteBuf) (k : Nat) (p p2 : List Nat)
    (hk1 : 1 ≤ k) (hk2 : k ≤ dbLength)
    (hp : ValidPayload p) (hfit : p.length ≤ entryLength)
    (hp2 : ValidPayload p2) (hshorter : p2.length < p.length)
    (hempty : db ((k - 1) * entryLength) = 0) :
    ∃ db1 db2 db3 : ByteBuf,
      baAdd db ⟨(k : Int), p⟩ = .ok (db1, 0) ∧
      baDelete db1 (k : Int) = .ok (db2, 0) ∧
      baAdd db2 ⟨(k : Int), p2⟩ = .ok (db3, 0) ∧
      baGet db3 (k : Int) = .ok (some ⟨(k : Int), p2⟩) := by
  obtain ⟨hne, _hhead, hval⟩ := hp
  obtain ⟨hne2, _hhead2, hval2⟩ := hp2
  have hpos : ∀ b ∈ p, 0 < b := fun b hb => (hval b hb).1
  have hpos2 : ∀ b ∈ p2, 0 < b := fun b hb => (hval2 b hb).1
  have hfit2 : p2.length ≤ entryLength := by omega
  have hplen : 0 < p.length := List.length_pos.mpr hne
  have hplen2 : 0 < p2.length := List.length_pos.mpr hne2
  set f := (k - 1) * entryLength with hf
  refine ⟨writeFn db f p, zeroFn (writeFn db f p) f entryLength,
    writeFn (zeroFn (writeFn db f p) f entryLength) f p2, ?_, ?_, ?_, ?_⟩
  · exact baAdd_ok db k p hk1 hk2 hfit hempty
  · apply baDelete_ok _ k hk1 hk2
    have heq : writeFn db f p f = p.getD 0 0 := by
      unfold writeFn
      rw [if_pos ⟨le_refl f, by omega⟩, Nat.sub_self]
    rw [heq]
    have := getD_zero_pos p hne hpos
    omega
  · apply baAdd_ok _ k p2 hk1 hk2 hfit2
    show zeroFn (writeFn db f p) f entryLength f = 0
    unfold zeroFn
    rw [if_pos ⟨le_refl f, by rw [entryLength_eq]; omega⟩]
  · apply baGet_ok _ k p2 hk1 hk2 hne2 hpos2 hfit2
    · intro t ht
      show writeFn (zeroFn (writeFn db f p) f entryLength) f p2 (f + t) = p2.getD t 0
      unfold writeFn
      rw [if_pos ⟨by omega, by omega⟩]
      have : f + t - f = t := by omega
      rw [this]
    · intro t ht1 ht2
      have h1 : ¬ (f ≤ f + t ∧ f + t < f + p2.length) := by omega
      have h2 : f ≤ f + t ∧ f + t < f + entryLength := by omega
      simp only [writeFn, zeroFn]
      rw [if_neg h1, if_pos h2]

/-- C8 witness: the tombstone round trip at `k = 2` with the concrete
payloads `pA` (32 bytes) and `pShort` (28 bytes) on the empty store. -/
theorem C8_witness :
    ∃ db1 db2 db3 : ByteBuf,
      baAdd emptyBuf ⟨((2 : Nat) : Int), pA⟩ = .ok (db1, 0) ∧
      baDelete db1 ((2 : Nat) : Int) = .ok (db2, 0) ∧
      baAdd db2 ⟨((2 : Nat) : Int), pShort⟩ = .ok (db3, 0) ∧
      baGet db3 ((2 : Nat) : Int) = .ok (some ⟨((2 : Nat) : Int), pShort⟩) :=
  C8_tombstone_cleanliness emptyBuf 2 pA pShort (by decide) (by decide)
    (by decide) (by decide) (by decide) (by decide) rfl

/-! ### Claims about the other backends -/

/-- Source `{id: 1, title: "A", value: "value"}`. -/
def eA : DictEntity := ⟨1, "A", "value"⟩

/-- Source `{id: 1, title: "C", value: "value"}`. -/
def eC : DictEntity := ⟨1, "C", "value"⟩

/-- C5.  The claim (and the methods' own docstrings, and the call sites
in `app.py`) say `delete`/`update` return `0` (Success) exactly when the
record existed and `-1` (NotFound) otherwise.  The code's branches are
swapped: it returns `-1` after successfully removing/replacing and `0`
in the `KeyError` branch.  Evaluation at the failing inputs: a
one-record store and the empty store. -/
theorem C5_ordered_dict_swapped_codes :
    odDelete [(1, eA)] 1 = ([], -1) ∧
    odDelete ([] : List (Int × DictEntity)) 1 = ([], 0) ∧
    odUpdate [(1, eA)] eC = ([(1, eC)], -1) ∧
    odUpdate ([] : List (Int × DictEntity)) eC = ([], 0) := by
  refine ⟨rfl, rfl, rfl, rfl⟩

/-- C7.  The claim says add-then-get round-trips on every backend.  On
`RepositoryList`, `get` reads `entity.id` where `entity` is a dict, so
the first loop iteration raises `AttributeError`: after a successful
`add` on the empty list store, `get` of that very id raises instead of
returning the record.  (The working lookup helper `__get_index` reads
`entity["id"]`; `get` alone uses attribute access.) -/
theorem C7_list_get_raises_attribute_error :
    rlAdd [] eA = ([eA], 0) ∧
    rlGet [eA] 1 = .error .attributeError := by
  refine ⟨rfl, rfl⟩

/-- The database-backed state with one row `{id: 1, ...}` and an empty
cache. -/
def pgS0 : PgState := ⟨[(1, eA)], []⟩

/-- The state after `get(1)`: the row is now cached. -/
def pgS1 : PgState := (pgGet pgS0 1).2

/-- C4, counterexample.  The claim says every one of `add`, `update`,
`delete` removes the touched id's cache entry, leaving the id absent
from the cache.  `add` does not: its existence guard compares the
un-awaited coroutine `self.get(...)` with `{}`, which is always false,
so `add` returns `-1` having touched neither the table nor the cache —
after `get(1)` cached the record, `add` of a record with id `1` leaves
`1` cached.  (Even under the intended, awaited reading of the guard the
claim fails for `add`, which calls `cache.put`, not `cache.delete`.) -/
theorem C4_counterexample :
    pgS1.cache = [(1, eA)] ∧
    pgAdd pgS1 ⟨1, "B", "value"⟩ = (pgS1, -1) ∧
    (1 : Int) ∈ odKeys (pgAdd pgS1 ⟨1, "B", "value"⟩).1.cache := by
  refine ⟨rfl, rfl, by decide⟩

/-- C4, amended: `update` and `delete` do invalidate — after either, the
touched id is absent from the cache; `add` never touches the cache (it
always returns `-1` without inserting, because its guard compares an
un-awaited coroutine with `{}`), so a previously cached id stays
cached. -/
theorem C4_amended_invalidate (s : PgState) (e : DictEntity) (i : Int) :
    e.id ∉ odKeys (pgUpdate s e).1.cache ∧
    i ∉ odKeys (pgDelete s i).1.cache ∧
    pgAdd s e = (s, -1) := by
  refine ⟨?_, ?_, rfl⟩
  · show e.id ∉ odKeys (cacheDelete s.cache e.id)
    simp only [cacheDelete, odRemove, odKeys, List.mem_map]
    rintro ⟨kv, hmem, hkey⟩
    rw [List.mem_filter] at hmem
    have := hmem.2
    simp only [decide_eq_true_eq] at this
    exact this hkey
  · show i ∉ odKeys (cacheDelete s.cache i)
    simp only [cacheDelete, odRemove, odKeys, List.mem_map]
    rintro ⟨kv, hmem, hkey⟩
    rw [List.mem_filter] at hmem
    have := hmem.2
    simp only [decide_eq_true_eq] at this
    exact this hkey

/-! ### LRU cache lemmas -/

section CacheLemmas

variable {V : Type}

theorem filter_map_replace (c : List (Int × V)) (k : Int) (v : V) :
    ((c.map (fun kv => if kv.1 = k then (k, v) else kv)).filter
        (fun kv => kv.1 ≠ k))
      = c.filter (fun kv => kv.1 ≠ k) := by
  rw [List.filter_map]
  have hq : ((fun kv => decide (kv.1 ≠ k)) ∘
      (fun kv => if kv.1 = k then ((k, v) : Int × V) else kv)) =
      (fun kv => decide (kv.1 ≠ k)) := funext fun kv => by
    by_cases h : kv.1 = k <;> simp [h]
  rw [hq]
  have hid : ∀ kv ∈ c.filter (fun kv => kv.1 ≠ k),
      (if kv.1 = k then ((k, v) : Int × V) else kv) = kv := by
    intro kv hkv
    rw [List.mem_filter] at hkv
    have : ¬ kv.1 = k := by simpa using hkv.2
    simp [this]
  rw [List.map_congr_left hid]
  simp

theorem find_map_replace (c : List (Int × V)) (k : Int) (v : V)
    (h : c.any (fun kv => kv.1 = k) = true) :
    ((c.map (fun kv => if kv.1 = k then (k, v) else kv)).find?
        (fun kv => kv.1 = k)) = some (k, v) := by
  induction c with
  | nil => simp at h
  | cons a tl ih =>
      rw [List.map_cons]
      by_cases ha : a.1 = k
      · rw [if_pos ha]
        rw [List.find?_cons_of_pos _ (by simp)]
      · rw [if_neg ha]
        rw [List.find?_cons_of_neg _ (by simpa using ha)]
        apply ih
        simpa [ha] using h

theorem find_append_none {α : Type} (l₁ l₂ : List α) (p : α → Bool)
    (h : l₁.find? p = none) :
    (l₁ ++ l₂).find? p = l₂.find? p := by
  induction l₁ with
  | nil => rfl
  | cons a tl ih =>
      rw [List.find?_eq_none] at h
      rw [List.cons_append, List.find?_cons_of_neg _ (h a (by simp))]
      apply ih
      rw [List.find?_eq_none]
      intro x hx
      exact h x (by simp [hx])

theorem find_append_some {α : Type} (l₁ l₂ : List α) (p : α → Bool)
    (x : α) (h : l₁.find? p = some x) :
    (l₁ ++ l₂).find? p = some x := by
  induction l₁ with
  | nil => simp at h
  | cons a tl ih =>
      rw [List.cons_append]
      by_cases hpa : p a
      · rw [List.find?_cons_of_pos _ hpa] at h
        rw [List.find?_cons_of_pos _ hpa]
        exact h
      · rw [List.find?_cons_of_neg _ hpa] at h
        rw [List.find?_cons_of_neg _ hpa]
        exact ih h

/-- The net effect of `cache[key] = value; cache.move_to_end(key)`:
every entry for `key` is removed and `(key, value)` is appended at the
most-recently-used end. -/
theorem odMoveToEnd_odSet (c : List (Int × V)) (k : Int) (v : V) :
    odMoveToEnd (odSet c k v) k = odRemove c k ++ [(k, v)] := by
  unfold odSet odMoveToEnd odRemove
  by_cases h : c.any (fun kv => kv.1 = k)
  · rw [if_pos h, find_map_replace c k v h, filter_map_replace]
  · rw [if_neg h]
    have hnone : c.find? (fun kv => kv.1 = k) = none := by
      rw [List.find?_eq_none]
      intro x hx hpx
      exact h (List.any_eq_true.mpr ⟨x, hx, hpx⟩)
    rw [find_append_none _ _ _ hnone]
    rw [List.find?_cons_of_pos _ (by simp)]
    have hfc : c.filter (fun kv => kv.1 ≠ k) = c := by
      rw [List.filter_eq_self]
      intro x hx
      simp only [decide_eq_true_eq]
      intro hxk
      exact h (List.any_eq_true.mpr ⟨x, hx, by simp [hxk]⟩)
    rw [List.filter_append, hfc]
    simp

/-- Source `put` in closed form. -/
theorem cachePut_eq (maxsize : Nat) (c : List (Int × V)) (k : Int) (v : V) :
    cachePut maxsize c k v =
      (if (odRemove c k ++ [(k, v)]).length > maxsize
       then (odRemove c k ++ [(k, v)]).tail
       else odRemove c k ++ [(k, v)]) := by
  show (if (odMoveToEnd (odSet c k v) k).length > maxsize
        then (odMoveToEnd (odSet c k v) k).tail
        else odMoveToEnd (odSet c k v) k) = _
  rw [odMoveToEnd_odSet]

theorem length_filter_lt_of_mem (c : List (Int × V)) (k : Int) (x : Int × V)
    (hmem : x ∈ c) (hk : x.1 = k) :
    (odRemove c k).length < c.length := by
  unfold odRemove
  induction c with
  | nil => cases hmem
  | cons a tl ih =>
      rw [List.filter_cons]
      by_cases ha : a.1 ≠ k
      · rcases List.mem_cons.mp hmem with h1 | h2
        · exact absurd (h1 ▸ hk) ha
        · rw [if_pos (by simpa using ha)]
          have := ih h2
          simp only [List.length_cons]
          omega
      · rw [if_neg (by simpa using ha)]
        have := List.length_filter_le (fun kv => decide (kv.1 ≠ k)) tl
        simp only [List.length_cons]
        omega

theorem odMoveToEnd_length_le (c : List (Int × V)) (k : Int) :
    (odMoveToEnd c k).length ≤ c.length := by
  unfold odMoveToEnd
  split
  · exact le_refl _
  · next kv h =>
      have hmem := List.mem_of_find?_eq_some h
      have hk : kv.1 = k := by simpa using List.find?_some h
      have hlt := length_filter_lt_of_mem c k kv hmem hk
      unfold odRemove at hlt
      rw [List.length_append]
      simp only [List.length_singleton]
      omega

theorem odSet_length_le (c : List (Int × V)) (k : Int) (v : V) :
    (odSet c k v).length ≤ c.length + 1 := by
  unfold odSet
  split
  · rw [List.length_map]; omega
  · rw [List.length_append]; simp

theorem cachePut_length_le (maxsize : Nat) (c : List (Int × V)) (k : Int)
    (v : V) (h : c.length ≤ maxsize) :
    (cachePut maxsize c k v).length ≤ maxsize := by
  have h1 := odSet_length_le c k v
  have h2 := odMoveToEnd_length_le (odSet c k v) k
  show (if (odMoveToEnd (odSet c k v) k).length > maxsize
        then (odMoveToEnd (odSet c k v) k).tail
        else odMoveToEnd (odSet c k v) k).length ≤ maxsize
  split
  · rw [List.length_tail]
    omega
  · omega

theorem cacheGet_length_le (c : List (Int × V)) (k : Int) :
    ((cacheGet c k).2).length ≤ c.length := by
  unfold cacheGet
  split
  · exact le_refl _
  · exact odMoveToEnd_length_le c k

theorem cacheDelete_length_le (c : List (Int × V)) (k : Int) :
    (cacheDelete c k).length ≤ c.length := by
  unfold cacheDelete odRemove
  exact List.length_filter_le _ _

theorem cacheRun_length_le (maxsize : Nat) (ops : List (CacheOp V))
    (c : List (Int × V)) (h : c.length ≤ maxsize) :
    (cacheRun maxsize ops c).length ≤ maxsize := by
  induction ops generalizing c with
  | nil => simpa [cacheRun] using h
  | cons op ops ih =>
      cases op with
      | put k v => exact ih _ (cachePut_length_le maxsize c k v h)
      | get k => exact ih _ (le_trans (cacheGet_length_le c k) h)
      | delete k => exact ih _ (le_trans (cacheDelete_length_le c k) h)
      | clear => exact ih _ (by simp [cacheClear])

theorem length_odRemove_nodup (c : List (Int × V)) (k : Int)
    (hnd : (odKeys c).Nodup) (hmem : k ∈ odKeys c) :
    (odRemove c k).length + 1 = c.length := by
  unfold odRemove
  induction c with
  | nil => simp [odKeys] at hmem
  | cons a tl ih =>
      simp only [odKeys, List.map_cons, List.nodup_cons] at hnd
      obtain ⟨hna, hnd'⟩ := hnd
      rw [List.filter_cons]
      have hkeys : odKeys (a :: tl) = a.1 :: odKeys tl := rfl
      rw [hkeys] at hmem
      rcases List.mem_cons.mp hmem with h1 | h2
      · rw [if_neg (by simp [h1])]
        have htl : tl.filter (fun kv => kv.1 ≠ k) = tl := by
          rw [List.filter_eq_self]
          intro x hx
          simp only [decide_eq_true_eq]
          intro hxk
          exact hna (by rw [← h1, ← hxk]; exact List.mem_map_of_mem _ hx)
        rw [htl, List.length_cons]
      · have ha : a.1 ≠ k := by
          intro hak
          exact hna (by rw [hak]; exact h2)
        rw [if_pos (by simpa using ha)]
        have := ih hnd' h2
        simp only [List.length_cons]
        omega

theorem find_odRemove_ne (c : List (Int × V)) (k k' : Int) (hne : k' ≠ k) :
    ((odRemove c k).find? (fun kv => kv.1 = k'))
      = c.find? (fun kv => kv.1 = k') := by
  unfold odRemove
  induction c with
  | nil => rfl
  | cons a tl ih =>
      rw [List.filter_cons]
      by_cases ha : a.1 = k
      · rw [if_neg (by simp [ha])]
        rw [ih, List.find?_cons_of_neg]
        simp only [decide_eq_true_eq]
        intro hk'
        exact hne (by rw [← hk', ha])
      · rw [if_pos (by simpa using ha)]
        by_cases hak' : a.1 = k'
        · rw [List.find?_cons_of_pos _ (by simpa using hak'),
            List.find?_cons_of_pos _ (by simpa using hak')]
        · rw [List.find?_cons_of_neg _ (by simpa using hak'),
            List.find?_cons_of_neg _ (by simpa using hak'), ih]

theorem odKeys_odSet_mem (c : List (Int × V)) (k : Int) (v : V)
    (h : c.any (fun kv => kv.1 = k) = true) :
    odKeys (odSet c k v) = odKeys c := by
  unfold odSet odKeys
  rw [if_pos h, List.map_map]
  apply List.map_congr_left
  intro kv _
  by_cases hk : kv.1 = k <;> simp [hk]

theorem nodup_odSet (c : List (Int × V)) (k : Int) (v : V)
    (hnd : (odKeys c).Nodup) : (odKeys (odSet c k v)).Nodup := by
  by_cases h : c.any (fun kv => kv.1 = k)
  · rw [odKeys_odSet_mem c k v h]
    exact hnd
  · unfold odSet
    rw [if_neg h]
    unfold odKeys
    rw [List.map_append]
    rw [List.nodup_append]
    refine ⟨hnd, by simp, ?_⟩
    intro x hx
    simp only [List.map_cons, List.map_nil, List.mem_singleton]
    intro hxk
    obtain ⟨kv, hkv, hfst⟩ := List.mem_map.mp hx
    exact absurd (List.any_eq_true.mpr ⟨kv, hkv, by simp [hfst, hxk]⟩) h

theorem nodup_odRemove (c : List (Int × V)) (k : Int)
    (hnd : (odKeys c).Nodup) : (odKeys (odRemove c k)).Nodup := by
  unfold odRemove odKeys
  exact List.Nodup.sublist (List.Sublist.map _ (List.filter_sublist c)) hnd

theorem not_mem_odKeys_odRemove (c : List (Int × V)) (k : Int) :
    k ∉ odKeys (odRemove c k) := by
  unfold odRemove odKeys
  intro hmem
  obtain ⟨kv, hkv, hfst⟩ := List.mem_map.mp hmem
  rw [List.mem_filter] at hkv
  have := hkv.2
  simp only [decide_eq_true_eq] at this
  exact this hfst

theorem nodup_odMoveToEnd (c : List (Int × V)) (k : Int)
    (hnd : (odKeys c).Nodup) : (odKeys (odMoveToEnd c k)).Nodup := by
  unfold odMoveToEnd
  split
  · exact hnd
  · next kv h =>
      have hk : kv.1 = k := by simpa using List.find?_some h
      show (odKeys (odRemove c k ++ [kv])).Nodup
      unfold odKeys
      rw [List.map_append, List.nodup_append]
      refine ⟨nodup_odRemove c k hnd, by simp, ?_⟩
      intro x hx
      simp only [List.map_cons, List.map_nil, List.mem_singleton]
      intro hxk
      have : x ∈ odKeys (odRemove c k) := hx
      rw [hxk, hk] at this
      exact not_mem_odKeys_odRemove c k this

theorem nodup_tail (c : List (Int × V)) (hnd : (odKeys c).Nodup) :
    (odKeys c.tail).Nodup := by
  unfold odKeys
  cases c with
  | nil => simp
  | cons a tl =>
      simp only [List.tail_cons]
      unfold odKeys at hnd
      rw [List.map_cons, List.nodup_cons] at hnd
      exact hnd.2

theorem nodup_cachePut (maxsize : Nat) (c : List (Int × V)) (k : Int) (v : V)
    (hnd : (odKeys c).Nodup) : (odKeys (cachePut maxsize c k v)).Nodup := by
  have h1 := nodup_odMoveToEnd (odSet c k v) k (nodup_odSet c k v hnd)
  show (odKeys (if (odMoveToEnd (odSet c k v) k).length > maxsize
      then (odMoveToEnd (odSet c k v) k).tail
      else odMoveToEnd (odSet c k v) k)).Nodup
  split
  · exact nodup_tail _ h1
  · exact h1

theorem nodup_cacheGet (c : List (Int × V)) (k : Int)
    (hnd : (odKeys c).Nodup) : (odKeys (cacheGet c k).2).Nodup := by
  unfold cacheGet
  split
  · exact hnd
  · exact nodup_odMoveToEnd c k hnd

/-- Every cache state reachable from the empty cache has pairwise
distinct keys — the justification for the key-distinctness hypotheses of
the put-on-existing-key theorem. -/
theorem cacheRun_nodupKeys (maxsize : Nat) (ops : List (CacheOp V))
    (c : List (Int × V)) (hnd : (odKeys c).Nodup) :
    (odKeys (cacheRun maxsize ops c)).Nodup := by
  induction ops generalizing c with
  | nil => simpa [cacheRun] using hnd
  | cons op ops ih =>
      cases op with
      | put k v => exact ih _ (nodup_cachePut maxsize c k v hnd)
      | get k => exact ih _ (nodup_cacheGet c k hnd)
      | delete k => exact ih _ (nodup_odRemove c k hnd)
      | clear => exact ih _ (by simp [cacheClear, odKeys])

end CacheLemmas

/-- C9: (i) from the empty cache, after any sequence of operations the
cache holds at most `maxsize` entries; (ii) `put` in closed form: the
key's old entry is removed, `(k, v)` is appended at the
most-recently-used end, and when that exceeds `maxsize` exactly the
single least-recently-used entry (the head) is dropped; (iii) a `get`
hit moves the touched key to the most-recently-used end; (iv) a `put`
of a fresh key on a full cache evicts exactly the head; (v), (vi) the
two concrete `maxsize = 2` scenarios of the spec leaving `{2, 3}`
cached. -/
theorem C9_lru_invariants (maxsize : Nat) (ops : List (CacheOp DictEntity))
    (c : List (Int × DictEntity)) (k : Int) (v A B C : DictEntity) :
    (cacheRun maxsize ops ([] : List (Int × DictEntity))).length ≤ maxsize ∧
    cachePut maxsize c k v =
      (if (odRemove c k ++ [(k, v)]).length > maxsize
       then (odRemove c k ++ [(k, v)]).tail
       else odRemove c k ++ [(k, v)]) ∧
    (k ∈ odKeys c → ∃ w, cacheGet c k = (some w, odRemove c k ++ [(k, w)])) ∧
    (k ∉ odKeys c → c.length = maxsize → 0 < maxsize →
      cachePut maxsize c k v = c.tail ++ [(k, v)]) ∧
    cacheRun 2 [.put 1 A, .put 2 B, .put 3 C] [] = [(2, B), (3, C)] ∧
    cacheRun 2 [.put 1 A, .put 2 B, .get 2, .put 3 C] [] = [(2, B), (3, C)] := by
  refine ⟨cacheRun_length_le maxsize ops [] (by simp),
    cachePut_eq maxsize c k v, ?_, ?_,
    by simp [cacheRun, cachePut, odSet, odMoveToEnd, cacheGet, odRemove],
    by simp [cacheRun, cachePut, odSet, odMoveToEnd, cacheGet, odRemove]⟩
  · intro hmem
    match hf : c.find? (fun kv => kv.1 = k) with
    | none =>
        exfalso
        rw [List.find?_eq_none] at hf
        obtain ⟨x, hx, hxk⟩ := List.mem_map.mp hmem
        exact hf x hx (by simp [hxk])
    | some kv =>
        have hk : kv.1 = k := by simpa using List.find?_some hf
        refine ⟨kv.2, ?_⟩
        have hkv : kv = (k, kv.2) := by
          cases kv
          simp only at hk
          rw [hk]
        unfold cacheGet odMoveToEnd
        rw [hf, ← hkv]
        rfl
  · intro hnk hlen hpos
    rw [cachePut_eq]
    have hrem : odRemove c k = c := by
      unfold odRemove
      rw [List.filter_eq_self]
      intro x hx
      simp only [decide_eq_true_eq]
      intro hxk
      exact hnk (by rw [← hxk]; exact List.mem_map_of_mem _ hx)
    rw [hrem]
    rw [if_pos (by rw [List.length_append]; simp; omega)]
    cases c with
    | nil => simp at hlen; omega
    | cons a tl => rfl

/-- C9 witness: the get-hit promotion clause at the one-entry cache
`[(1, eA)]`. -/
theorem C9_lru_witness :
    ∃ w, cacheGet [((1 : Int), eA)] 1 =
      (some w, odRemove [((1 : Int), eA)] 1 ++ [(1, w)]) :=
  (C9_lru_invariants 1 [] [((1 : Int), eA)] 1 eA eA eA eA).2.2.1 (by decide)

/-- Source `{id: 2, title: "B", value: "value"}`. -/
def eB2 : DictEntity := ⟨2, "B", "value"⟩

/-- C10: `put` of a key already present (on a reachable cache state:
distinct keys, size within `maxsize`) replaces the value, promotes the
key to most-recently-used, evicts nothing (size unchanged) and leaves
every other key's binding unchanged. -/
theorem C10_put_existing_key (maxsize : Nat) (c : List (Int × DictEntity))
    (k : Int) (v : DictEntity)
    (hnd : (odKeys c).Nodup) (hmem : k ∈ odKeys c) (hlen : c.length ≤ maxsize) :
    cachePut maxsize c k v = odRemove c k ++ [(k, v)] ∧
    (cachePut maxsize c k v).length = c.length ∧
    (cachePut maxsize c k v).getLast? = some (k, v) ∧
    ∀ k', k' ≠ k → odRead (cachePut maxsize c k v) k' = odRead c k' := by
  have hflen := length_odRemove_nodup c k hnd hmem
  have heq : cachePut maxsize c k v = odRemove c k ++ [(k, v)] := by
    rw [cachePut_eq]
    rw [if_neg (by rw [List.length_append]; simp; omega)]
  refine ⟨heq, ?_, ?_, ?_⟩
  · rw [heq, List.length_append]
    simp only [List.length_singleton]
    omega
  · rw [heq, List.getLast?_concat]
  · intro k' hk'
    rw [heq]
    unfold odRead
    match hfc : c.find? (fun kv => kv.1 = k') with
    | some x =>
        have h1 : (odRemove c k).find? (fun kv => kv.1 = k') = some x := by
          rw [find_odRemove_ne c k k' hk']
          exact hfc
        rw [find_append_some _ _ _ _ h1, hfc]
    | none =>
        have h1 : (odRemove c k).find? (fun kv => kv.1 = k') = none := by
          rw [find_odRemove_ne c k k' hk']
          exact hfc
        have h2 : (([((k : Int), v)]) : List (Int × DictEntity)).find?
            (fun kv => kv.1 = k') = none := by
          rw [List.find?_cons_of_neg _ (by simp [Ne.symm hk'])]
          rfl
        rw [find_append_none _ _ _ h1, h2, hfc]

/-- C10 witness: replacing key 1's value in the full two-entry cache
`[(1, eA), (2, eB2)]` with `maxsize = 2`. -/
theorem C10_witness :
    cachePut 2 [((1 : Int), eA), ((2 : Int), eB2)] 1 eC =
      odRemove [((1 : Int), eA), ((2 : Int), eB2)] 1 ++ [(1, eC)] :=
  (C10_put_existing_key 2 [((1 : Int), eA), ((2 : Int), eB2)] 1 eC
    (by decide) (by decide) (by decide)).1

end SampleBackend
